import Mathlib

/-!
Verification of the waterslide receiver pipeline: a shallow embedding of
`src/receiver.c` (SLIP destuffer, channel-1 block state machine, decode-ring
producers) and `src/endpoint-secure.c` (multi-endpoint send, synthetic IPv4
framing), with theorems checking the specification's claims against it.

Bytes are modelled as `Nat` (values in [0,255]); machine `int` values as `Int`.
Buffers are `List Nat`; the decode ring is a `List Int` of sample slots.
-/

/-- State of the SLIP destuffer: the scratch buffer `audioEncodedBuf`
(its filled part, `audioEncodedBufPos` = length) and the `slipEsc` flag
from `src/receiver.c`. -/
structure SlipState where
  buf : List Nat
  esc : Bool

/-- Initial destuffer state: `audioEncodedBufPos = 0`, `slipEsc = false`. -/
def slipInit : SlipState := ⟨[], false⟩

/-- One pass of the loop body of `slipDecodeBlock` (src/receiver.c lines 88-120)
over the remaining input. `max` is `maxEncodedPacketSize`. Accumulates emitted
codec frames (each `0xC0` delimiter with a non-empty scratch delivers the
scratch to `decodePacket`); returns the state at exit, the frames in emission
order, and `some e` for an early error return `e`, `none` for success. -/
def slipDecodeAux (max : Nat) : List Nat → SlipState → List (List Nat) →
    SlipState × List (List Nat) × Option Int
  | [], s, fs => (s, fs.reverse, none)
  | b :: rest, s, fs =>
    if s.esc then
      if b = 0xdc then
        if s.buf.length ≥ max then (s, fs.reverse, some (-1))
        else slipDecodeAux max rest ⟨s.buf ++ [0xc0], false⟩ fs
      else if b = 0xdd then
        if s.buf.length ≥ max then (s, fs.reverse, some (-2))
        else slipDecodeAux max rest ⟨s.buf ++ [0xdb], false⟩ fs
      else (s, fs.reverse, some (-3))
    else if b = 0xc0 then
      if s.buf.length = 0 then slipDecodeAux max rest s fs
      else slipDecodeAux max rest ⟨[], s.esc⟩ (s.buf :: fs)
    else if b = 0xdb then
      slipDecodeAux max rest ⟨s.buf, true⟩ fs
    else
      if s.buf.length ≥ max then (s, fs.reverse, some (-4))
      else slipDecodeAux max rest ⟨s.buf ++ [b], false⟩ fs

/-- `slipDecodeBlock` (src/receiver.c lines 88-120): runs the destuffer over
`input`; the `Int` component is the C return value (`bufLen` on success, the
negative error code on failure). -/
def slipDecodeBlock (max : Nat) (s : SlipState) (input : List Nat) :
    SlipState × List (List Nat) × Int :=
  match slipDecodeAux max input s [] with
  | (s2, fs, none) => (s2, fs, (input.length : Int))
  | (s2, fs, some e) => (s2, fs, e)

/-- Modelled from the spec: `utils_slipEncode` is declared in
`include/utils.h` but its implementation (utils.c) is not among the sources.
Per the wire-format section, the encoder escapes `0xC0` as `DB DC` and `0xDB`
as `DB DD`, passing every other byte through unchanged. -/
def utils_slipEncode : List Nat → List Nat
  | [] => []
  | b :: rest =>
    (if b = 0xc0 then [0xdb, 0xdc]
     else if b = 0xdb then [0xdb, 0xdd]
     else [b]) ++ utils_slipEncode rest

/-- The SBN delta computation inside `onBlockCh1` (src/receiver.c lines
127-133): forward-wrap when `sbnLast - sbn > 128`, plain difference
otherwise. -/
def sbnDiffOf (sbnLast sbn : Int) : Int :=
  if sbnLast - sbn > 128 then 256 - sbnLast + sbn else sbn - sbnLast

/-- Channel-1 receiver state touched by `onBlockCh1`: `sbnLast` (sentinel -1),
the two stats counters, and the destuffer state. -/
structure Ch1State where
  sbnLast : Int
  dupBlockCount : Nat
  oooBlockCount : Nat
  slip : SlipState

/-- Initial channel-1 state: `sbnLast = -1`, zeroed counters, empty
destuffer. -/
def ch1Init : Ch1State := ⟨-1, 0, 0, slipInit⟩

/-- The decode tail of `onBlockCh1` (src/receiver.c lines 158-162): run
`slipDecodeBlock` on the block payload and reset the destuffer state when it
returns a negative value. -/
def ch1DoDecode (max : Nat) (s : Ch1State) (buf : List Nat) : Ch1State :=
  let r := slipDecodeBlock max s.slip buf
  if r.2.2 < 0 then { s with slip := slipInit } else { s with slip := r.1 }

/-- `onBlockCh1` (src/receiver.c lines 123-163). `sbn` is the delivered
block's SBN. The `Bool` records whether the payload was SLIP-decoded
(`tryDecode` at line 156). -/
def onBlockCh1 (max : Nat) (s : Ch1State) (buf : List Nat) (sbn : Nat) :
    Ch1State × Bool :=
  if s.sbnLast ≠ -1 then
    if sbnDiffOf s.sbnLast (sbn : Int) = 0 then
      ({ s with sbnLast := (sbn : Int),
                dupBlockCount := s.dupBlockCount + 1 }, false)
    else if sbnDiffOf s.sbnLast (sbn : Int) < 0 then
      ({ s with sbnLast := (sbn : Int),
                oooBlockCount := s.oooBlockCount + 1 }, false)
    else if sbnDiffOf s.sbnLast (sbn : Int) > 1 then
      ({ s with sbnLast := (sbn : Int),
                oooBlockCount := s.oooBlockCount
                  + (sbnDiffOf s.sbnLast (sbn : Int) - 1).toNat,
                slip := slipInit }, false)
    else
      (ch1DoDecode max { s with sbnLast := (sbn : Int) } buf, true)
  else
    (ch1DoDecode max { s with sbnLast := (sbn : Int) } buf, true)

/-- Process a sequence of delivered blocks (all carrying payload `payload`)
through `onBlockCh1`, collecting for each block whether it was
SLIP-decoded. -/
def runBlocks (max : Nat) (payload : List Nat) :
    Ch1State → List Nat → Ch1State × List Bool
  | s, [] => (s, [])
  | s, sbn :: rest =>
    let r := onBlockCh1 max s payload sbn
    let t := runBlocks max payload r.1 rest
    (t.1, r.2 :: t.2)

/-- Decoder-side ring state used by `decodePacket`: the decode ring's
occupied slots (one `Int` sample slot each) and the static `overrun` flag. -/
structure DecodeState where
  ring : List Int
  overrun : Bool

/-- Modelled from the spec: `syncer_enqueueBuf` (syncer.c is not among the
sources). Per the syncer section, it resamples one codec frame and pushes the
resulting interleaved samples into the decode ring; if the push would overflow
`decodeRingMaxSize` it drops them and returns -2, otherwise it returns the
number of audio frames added, `resampled.length / channels`. `resampled`
stands for the resampler's output for this call (a whole number of
interleaved frames, so `channels` divides its length). -/
def syncer_enqueueBuf (maxSize channels : Nat) (ring : List Int)
    (resampled : List Int) : List Int × Int :=
  if ring.length + resampled.length > maxSize then (ring, -2)
  else (ring ++ resampled, (resampled.length / channels : Nat))

/-- `decodePacket` (src/receiver.c lines 32-70) from the point where the codec
has produced `sampleBuf`: `codecOk` stands for the codec-decode check at lines
39-55 succeeding, `resampled` for the samples the syncer would push for this
frame. Returns the updated ring/overrun state and the C return value. -/
def decodePacket (maxSize channels : Nat) (st : DecodeState) (codecOk : Bool)
    (resampled : List Int) : DecodeState × Int :=
  if codecOk = false then (st, -1)
  else if st.overrun = true ∧ maxSize / 2 < st.ring.length then (st, 0)
  else
    let r := syncer_enqueueBuf maxSize channels st.ring resampled
    (⟨r.1, if r.2 = -2 then true else false⟩, r.2)

/-- `enqueueSilence` (src/receiver.c lines 72-86): pushes
`channels * frameCount` zero slots unless `frameCount` is negative or the push
would exceed `decodeRingMaxSize`. -/
def enqueueSilence (maxSize channels : Nat) (ring : List Int)
    (frameCount : Int) : List Int × Int :=
  if frameCount < 0 then (ring, -1)
  else
    let totalSamples := channels * frameCount.toNat
    if ring.length + totalSamples > maxSize then (ring, -2)
    else (ring ++ List.replicate totalSamples 0, frameCount)

/-- A producer-side push on the decode ring: either `enqueueSilence` or the
enqueue path of `decodePacket`. -/
inductive ProdOp where
  | silence (frameCount : Int)
  | packet (codecOk : Bool) (resampled : List Int)

/-- Apply one producer-side operation to the decode-ring state. -/
def prodStep (maxSize channels : Nat) (st : DecodeState) : ProdOp → DecodeState
  | ProdOp.silence fc => { st with ring := (enqueueSilence maxSize channels st.ring fc).1 }
  | ProdOp.packet ok r => (decodePacket maxSize channels st ok r).1

/-- Run a sequence of producer-side operations on the decode-ring state. -/
def runProd (maxSize channels : Nat) : DecodeState → List ProdOp → DecodeState
  | st, [] => st
  | st, op :: rest => runProd maxSize channels (prodStep maxSize channels st op) rest

/-- One iteration of the loop in `sendBufToAll` (src/endpoint-secure.c lines
29-40) for endpoint `i`: `sendResult i` is the value `wsocket_sendToPeer`
returns there (-1: not ready yet; 0: success; anything else: send error).
Only a successful send adds `bufLen + 28` to that endpoint's `bytesOut`
counter. -/
def sendToPeerStep (sendResult : Nat → Int) (bufLen : Nat) (acc : Nat → Nat)
    (i : Nat) : Nat → Nat :=
  let err := sendResult i
  if err = -1 then acc
  else if err ≠ 0 then acc
  else fun j => if j = i then acc j + (bufLen + 28) else acc j

/-- `sendBufToAll` (src/endpoint-secure.c lines 27-41): iterate over all
`endpointCount` endpoints, updating the `bytesOut` counters (given and
returned as a map from endpoint index to counter value). -/
def sendBufToAll (sendResult : Nat → Int) (bufLen endpointCount : Nat)
    (bytesOut : Nat → Nat) : Nat → Nat :=
  (List.range endpointCount).foldl (sendToPeerStep sendResult bufLen) bytesOut

/-- `endpointsec_send` (src/endpoint-secure.c lines 193-215): for a plaintext
of at most `1500 - 20` bytes, build the buffer handed to `wireguard_write`:
the 20-byte synthetic IPv4 header (first byte 0x45; bytes 2-3 the total
length, big-endian; every other byte left at its zero initialisation)
followed by the plaintext. Longer plaintexts return error -1 before the
engine is called. -/
def endpointsec_send (buf : List Nat) : Except Int (List Nat) :=
  if buf.length > 1500 - 20 then Except.error (-1)
  else
    Except.ok ([0x45, 0x00, (buf.length + 20) / 256, (buf.length + 20) % 256,
                0, 0, 0, 0, 0, 0, 0, 0, 0, 0, 0, 0, 0, 0, 0, 0] ++ buf)

/-- C2 (counterexample): from the empty destuffer state, the payload
`DB DC C0 DB DD` does NOT emit a codec frame `C0 DB`: the escaped `C0` is
followed by a raw `C0` delimiter, which already delivers the one-byte frame
`C0`, and the escaped `DB` stays in the scratch buffer. -/
theorem C2_counterexample :
    (slipDecodeBlock 256 slipInit [0xdb, 0xdc, 0xc0, 0xdb, 0xdd]).2.1
      ≠ [[0xc0, 0xdb]] := by
  decide

/-- C2 (amended): from the empty destuffer state, running the destuffer over
the payload `DB DC C0 DB DD` (for any `maxEncodedPacketSize ≥ 1`) emits
exactly one codec frame, consisting of the single byte `C0`; the escaped `DB`
is left pending in the scratch buffer and the call succeeds, returning 5. -/
theorem C2_thm (max : Nat) (h : 1 ≤ max) :
    slipDecodeBlock max slipInit [0xdb, 0xdc, 0xc0, 0xdb, 0xdd]
      = (⟨[0xdb], false⟩, [[0xc0]], 5) := by
  have h0 : ¬ (List.length ([] : List Nat) ≥ max) :=
    fun hle => Nat.not_succ_le_zero 0 (le_trans h hle)
  have h1 : ¬ max = 0 := Nat.pos_iff_ne_zero.mp h
  simp [slipDecodeBlock, slipDecodeAux, slipInit, h0, h1]

/-- C2 (witness): the amended claim evaluated at `maxEncodedPacketSize = 2`. -/
theorem C2_witness :
    1 ≤ 2 ∧ slipDecodeBlock 2 slipInit [0xdb, 0xdc, 0xc0, 0xdb, 0xdd]
      = (⟨[0xdb], false⟩, [[0xc0]], 5) :=
  ⟨by decide, C2_thm 2 (by decide)⟩

/-- Consuming the encoding of `x` from a non-escape state appends `x` to the
destuffer scratch: the encoder's output contains no raw `C0`, so no frame is
delivered and no error occurs as long as the scratch stays within
`maxEncodedPacketSize`. -/
lemma slipDecodeAux_encode (max : Nat) (x : List Nat) :
    ∀ (rest acc : List Nat) (fs : List (List Nat)),
      acc.length + x.length ≤ max →
      slipDecodeAux max (utils_slipEncode x ++ rest) ⟨acc, false⟩ fs
        = slipDecodeAux max rest ⟨acc ++ x, false⟩ fs := by
  induction x with
  | nil => intro rest acc fs h; simp [utils_slipEncode]
  | cons b t ih =>
    intro rest acc fs h
    have hacc : ¬ acc.length ≥ max := by
      simp only [List.length_cons] at h
      exact Nat.not_le.mpr
        (lt_of_lt_of_le (Nat.lt_add_of_pos_right (Nat.succ_pos t.length)) h)
    have hstep : ∀ c : Nat, (acc ++ [c]).length + t.length ≤ max := by
      intro c
      simp only [List.length_append, List.length_singleton, List.length_cons,
                 List.length_nil] at h ⊢
      rw [Nat.add_right_comm]
      exact h
    by_cases hb : b = 0xc0
    · subst hb
      simp only [utils_slipEncode, if_pos rfl, List.cons_append, List.nil_append]
      simp [slipDecodeAux, hacc]
      rw [ih _ _ _ (hstep 0xc0)]
      simp [List.append_assoc]
    · by_cases hb2 : b = 0xdb
      · subst hb2
        simp only [utils_slipEncode, List.cons_append, List.nil_append]
        norm_num
        simp [slipDecodeAux, hacc]
        rw [ih _ _ _ (hstep 0xdb)]
        simp [List.append_assoc]
      · simp only [utils_slipEncode, if_neg hb, if_neg hb2, List.cons_append,
                   List.nil_append]
        simp [slipDecodeAux, hacc, hb, hb2]
        rw [ih _ _ _ (hstep b)]
        simp [List.append_assoc]

/-- C6 (counterexample): the round-trip `slipDecode(slipEncode(x)) = x` fails
for byte strings longer than `maxEncodedPacketSize`: with
`maxEncodedPacketSize = 1` and `x = [0, 0]`, the destuffer aborts with scratch
overflow (-4) and delivers no frame at all. -/
theorem C6_counterexample :
    (slipDecodeBlock 1 slipInit (utils_slipEncode [0, 0] ++ [0xc0])).2.1
      ≠ [[0, 0]] := by
  decide

/-- C6 (amended): for every byte string `x` with
`x.length ≤ maxEncodedPacketSize`, running the destuffer from the empty state
over `slipEncode(x)` followed by an END delimiter succeeds, delivers exactly
`x` (as the single codec frame `[x]` when `x` is non-empty; an empty `x`
delivers no frame, since back-to-back delimiters are ignored), and leaves the
destuffer empty: the destuffer is a left inverse of the encoder on strings
that fit the scratch buffer. -/
theorem C6_thm (max : Nat) (x : List Nat) (h : x.length ≤ max) :
    slipDecodeBlock max slipInit (utils_slipEncode x ++ [0xc0])
      = (slipInit, if x = [] then [] else [x],
         ((utils_slipEncode x ++ [0xc0]).length : Int)) := by
  unfold slipDecodeBlock slipInit
  rw [slipDecodeAux_encode max x [0xc0] [] [] (by simpa using h)]
  by_cases hx : x = []
  · subst hx
    simp [slipDecodeAux, slipInit]
  · have hlen : ¬ x.length = 0 := by
      simpa [List.length_eq_zero] using hx
    simp [slipDecodeAux, slipInit, hlen, hx]

/-- C6 (witness): the amended round-trip evaluated at
`maxEncodedPacketSize = 3`, `x = [0x01, 0xC0]`. -/
theorem C6_witness :
    slipDecodeBlock 3 slipInit (utils_slipEncode [1, 0xc0] ++ [0xc0])
      = (slipInit, [[1, 0xc0]], 4) := by
  have h := C6_thm 3 [1, 0xc0] (by decide)
  simpa [utils_slipEncode] using h

/-- The decode tail of `onBlockCh1` touches only the destuffer state, never
`sbnLast` or the two counters. -/
lemma ch1DoDecode_proj (max : Nat) (s : Ch1State) (buf : List Nat) :
    (ch1DoDecode max s buf).sbnLast = s.sbnLast
    ∧ (ch1DoDecode max s buf).dupBlockCount = s.dupBlockCount
    ∧ (ch1DoDecode max s buf).oooBlockCount = s.oooBlockCount := by
  simp only [ch1DoDecode]
  split <;> simp

/-- The SBN delta never exceeds 255 when both SBNs are 8-bit values. -/
lemma sbnDiffOf_le (a b : Int) (ha0 : 0 ≤ a) (ha : a ≤ 255) (hb0 : 0 ≤ b)
    (hb : b ≤ 255) : sbnDiffOf a b ≤ 255 := by
  unfold sbnDiffOf
  split_ifs with hgt
  · calc 256 - a + b = 256 - (a - b) := sub_add 256 a b
      _ ≤ 256 - 129 := sub_le_sub_left (Int.lt_iff_add_one_le.mp hgt) 256
      _ ≤ 255 := by decide
  · exact le_trans (sub_le_self b ha0) hb

/-- The very first block (`sbnLast = -1`) always takes the decode path. -/
lemma onBlockCh1_first (max : Nat) (payload : List Nat) (s : Ch1State)
    (sbn : Nat) (h : s.sbnLast = -1) :
    onBlockCh1 max s payload sbn
      = (ch1DoDecode max { s with sbnLast := (sbn : Int) } payload, true) := by
  simp [onBlockCh1, h]

/-- A block whose SBN delta is exactly 1 takes the decode path. -/
lemma onBlockCh1_diff_one (max : Nat) (payload : List Nat) (s : Ch1State)
    (sbn : Nat) (hne : s.sbnLast ≠ -1)
    (hd : sbnDiffOf s.sbnLast (sbn : Int) = 1) :
    onBlockCh1 max s payload sbn
      = (ch1DoDecode max { s with sbnLast := (sbn : Int) } payload, true) := by
  simp [onBlockCh1, hne, hd]

/-- One non-first block adds at most 254 to `dupBlockCount + oooBlockCount`
and always updates `sbnLast` to the delivered SBN. -/
lemma onBlockCh1_step_bound (max : Nat) (payload : List Nat) (s : Ch1State)
    (sbn : Nat) (h0 : 0 ≤ s.sbnLast) (h255 : s.sbnLast ≤ 255) (hs : sbn ≤ 255) :
    ((onBlockCh1 max s payload sbn).1.dupBlockCount
        + (onBlockCh1 max s payload sbn).1.oooBlockCount
      ≤ s.dupBlockCount + s.oooBlockCount + 254)
    ∧ (onBlockCh1 max s payload sbn).1.sbnLast = (sbn : Int) := by
  have hne : s.sbnLast ≠ -1 := fun heq => absurd (heq ▸ h0) (by decide)
  have hdle : sbnDiffOf s.sbnLast (sbn : Int) ≤ 255 :=
    sbnDiffOf_le _ _ h0 h255 (Int.natCast_nonneg sbn) (by exact_mod_cast hs)
  unfold onBlockCh1
  rw [if_pos hne]
  split_ifs with h1 h2 h3
  · refine ⟨?_, by simp⟩
    simp only
    rw [Nat.add_right_comm]
    exact Nat.add_le_add_left (by decide : (1 : Nat) ≤ 254) _
  · refine ⟨?_, by simp⟩
    simp only
    exact Nat.add_le_add_left (by decide : (1 : Nat) ≤ 254) _
  · refine ⟨?_, by simp⟩
    simp only
    rw [← Nat.add_assoc]
    exact Nat.add_le_add_left
      (Int.toNat_le_toNat (Int.sub_le_sub_right hdle 1)) _
  · refine ⟨?_, (ch1DoDecode_proj _ _ _).1⟩
    have hc := ch1DoDecode_proj max { s with sbnLast := (sbn : Int) } payload
    simp only at hc
    simp only
    rw [hc.2.1, hc.2.2]
    exact Nat.le_add_right _ _

/-- From any state whose `sbnLast` is a real 8-bit SBN, a sequence of `n`
blocks with 8-bit SBNs adds at most `254 * n` to
`dupBlockCount + oooBlockCount`. -/
lemma runBlocks_counter_bound (max : Nat) (payload : List Nat)
    (sbns : List Nat) :
    ∀ s : Ch1State, 0 ≤ s.sbnLast → s.sbnLast ≤ 255 →
      (∀ n ∈ sbns, n ≤ 255) →
      (runBlocks max payload s sbns).1.dupBlockCount
          + (runBlocks max payload s sbns).1.oooBlockCount
        ≤ s.dupBlockCount + s.oooBlockCount + 254 * sbns.length := by
  induction sbns with
  | nil => intro s h0 h255 hall; simp [runBlocks]
  | cons sbn rest ih =>
    intro s h0 h255 hall
    simp only [runBlocks]
    have hsbn : sbn ≤ 255 := hall sbn (by simp)
    have hstep := onBlockCh1_step_bound max payload s sbn h0 h255 hsbn
    have h0n : 0 ≤ (onBlockCh1 max s payload sbn).1.sbnLast := by
      rw [hstep.2]; exact Int.natCast_nonneg sbn
    have h255n : (onBlockCh1 max s payload sbn).1.sbnLast ≤ 255 := by
      rw [hstep.2]; exact_mod_cast hsbn
    have hrest := ih (onBlockCh1 max s payload sbn).1 h0n h255n
      (fun n hn => hall n (by simp [hn]))
    have hchain : ∀ x y a b L : Nat, x + y ≤ a + b + 254 →
        x + y + 254 * L ≤ a + b + 254 * (L + 1) := by
      intro x y a b L hxy
      calc x + y + 254 * L
          ≤ (a + b + 254) + 254 * L := Nat.add_le_add_right hxy _
        _ = a + b + (254 * L + 254) := by rw [Nat.add_assoc, Nat.add_comm 254]
        _ = a + b + 254 * (L + 1) := rfl
    simp only [List.length_cons]
    exact le_trans hrest (hchain _ _ _ _ _ hstep.1)

/-- C1 (counterexample): delivering the SBN sequence `0, 255` (2 blocks)
drives `oooBlockCount` to 254, violating
`dupBlockCount + oooBlockCount ≤ blocks received - 1 = 1`: a single forward
gap adds `diff - 1` (up to 254), not 1, to the counter. -/
theorem C1_counterexample :
    ¬ ((runBlocks 1 [] ch1Init [0, 255]).1.dupBlockCount
        + (runBlocks 1 [] ch1Init [0, 255]).1.oooBlockCount
      ≤ [0, 255].length - 1) := by
  decide

/-- C1 (amended): for every sequence of calls to `onBlockCh1` with SBN values
in [0,255], starting from the initial state, after processing the whole
sequence `dupBlockCount + oooBlockCount` is at most `254 *` (the number of
blocks received minus 1): the first block adds nothing, and each later block
adds at most 254. -/
theorem C1_thm (max : Nat) (payload : List Nat) (sbns : List Nat)
    (h : ∀ n ∈ sbns, n ≤ 255) :
    (runBlocks max payload ch1Init sbns).1.dupBlockCount
        + (runBlocks max payload ch1Init sbns).1.oooBlockCount
      ≤ 254 * (sbns.length - 1) := by
  cases sbns with
  | nil => simp [runBlocks, ch1Init]
  | cons sbn rest =>
    simp only [runBlocks]
    have hfirst := onBlockCh1_first max payload ch1Init sbn rfl
    have hproj := ch1DoDecode_proj max { ch1Init with sbnLast := (sbn : Int) } payload
    have h0n : 0 ≤ (onBlockCh1 max ch1Init payload sbn).1.sbnLast := by
      rw [hfirst]; simp only; rw [hproj.1]; simp
    have h255n : (onBlockCh1 max ch1Init payload sbn).1.sbnLast ≤ 255 := by
      rw [hfirst]; simp only; rw [hproj.1]
      simp only [ch1Init]
      exact_mod_cast h sbn (by simp)
    have hdup : (onBlockCh1 max ch1Init payload sbn).1.dupBlockCount = 0 := by
      rw [hfirst]; simp only; rw [hproj.2.1]; rfl
    have hooo : (onBlockCh1 max ch1Init payload sbn).1.oooBlockCount = 0 := by
      rw [hfirst]; simp only; rw [hproj.2.2]; rfl
    have hrest := runBlocks_counter_bound max payload rest
      (onBlockCh1 max ch1Init payload sbn).1 h0n h255n
      (fun n hn => h n (by simp [hn]))
    rw [hdup, hooo] at hrest
    simp only [List.length_cons, Nat.add_sub_cancel]
    simpa using hrest

/-- C1 (witness): the amended bound evaluated on the SBN sequence `0, 255`:
the counters sum to 254 = 254 * (2 - 1). -/
theorem C1_witness :
    (runBlocks 1 [] ch1Init [0, 255]).1.dupBlockCount
        + (runBlocks 1 [] ch1Init [0, 255]).1.oooBlockCount
      ≤ 254 * ([0, 255].length - 1) :=
  C1_thm 1 [] [0, 255] (by decide)

/-- A block that takes the decode path (first block, or SBN delta exactly 1)
reports decoded = true, updates `sbnLast`, and leaves both counters
unchanged. -/
lemma onBlockCh1_decoded_proj (max : Nat) (payload : List Nat) (s : Ch1State)
    (sbn : Nat)
    (h : s.sbnLast = -1 ∨ sbnDiffOf s.sbnLast (sbn : Int) = 1) :
    (onBlockCh1 max s payload sbn).2 = true
    ∧ (onBlockCh1 max s payload sbn).1.sbnLast = (sbn : Int)
    ∧ (onBlockCh1 max s payload sbn).1.dupBlockCount = s.dupBlockCount
    ∧ (onBlockCh1 max s payload sbn).1.oooBlockCount = s.oooBlockCount := by
  have hp := ch1DoDecode_proj max { s with sbnLast := (sbn : Int) } payload
  simp only at hp
  by_cases hne : s.sbnLast = -1
  · rw [onBlockCh1_first max payload s sbn hne]
    exact ⟨rfl, hp.1, hp.2.1, hp.2.2⟩
  · rcases h with h | h
    · exact absurd h hne
    · rw [onBlockCh1_diff_one max payload s sbn hne h]
      exact ⟨rfl, hp.1, hp.2.1, hp.2.2⟩

/-- C4 (confirmed): the SBN delta used by `onBlockCh1` is
`if sbnLast - sbn > 128 then 256 - sbnLast + sbn else sbn - sbnLast`; the
very first block (`sbnLast = -1`) is always SLIP-decoded; and the delivery
sequence `254, 255, 0, 1` increments neither `dupBlockCount` nor
`oooBlockCount` while every one of the 4 blocks is SLIP-decoded. -/
theorem C4_thm (max : Nat) (payload : List Nat) (sbn : Nat) (a b : Int)
    (h : sbn ≤ 255) :
    sbnDiffOf a b = (if a - b > 128 then 256 - a + b else b - a)
    ∧ (onBlockCh1 max ch1Init payload sbn).2 = true
    ∧ (runBlocks max payload ch1Init [254, 255, 0, 1]).1.dupBlockCount = 0
    ∧ (runBlocks max payload ch1Init [254, 255, 0, 1]).1.oooBlockCount = 0
    ∧ (runBlocks max payload ch1Init [254, 255, 0, 1]).2
        = [true, true, true, true] := by
  have t1 := onBlockCh1_decoded_proj max payload ch1Init 254 (Or.inl rfl)
  have t2 := onBlockCh1_decoded_proj max payload
    (onBlockCh1 max ch1Init payload 254).1 255
    (Or.inr (by rw [t1.2.1]; decide))
  have t3 := onBlockCh1_decoded_proj max payload
    (onBlockCh1 max (onBlockCh1 max ch1Init payload 254).1 payload 255).1 0
    (Or.inr (by rw [t2.2.1]; decide))
  have t4 := onBlockCh1_decoded_proj max payload
    (onBlockCh1 max
      (onBlockCh1 max (onBlockCh1 max ch1Init payload 254).1 payload 255).1
      payload 0).1 1
    (Or.inr (by rw [t3.2.1]; decide))
  refine ⟨rfl, (onBlockCh1_decoded_proj max payload ch1Init sbn (Or.inl rfl)).1,
          ?_, ?_, ?_⟩
  · simp only [runBlocks]
    rw [t4.2.2.1, t3.2.2.1, t2.2.2.1, t1.2.2.1]
    rfl
  · simp only [runBlocks]
    rw [t4.2.2.2, t3.2.2.2, t2.2.2.2, t1.2.2.2]
    rfl
  · simp only [runBlocks]
    rw [t1.1, t2.1, t3.1, t4.1]

/-- C4 (witness): the claim evaluated at `maxEncodedPacketSize = 16`, empty
payload, first SBN 7, and the delta formula at `sbnLast = 200`,
`sbn = 10`. -/
theorem C4_witness :
    sbnDiffOf 200 10 = (if (200 : Int) - 10 > 128 then 256 - 200 + 10 else 10 - 200)
    ∧ (onBlockCh1 16 ch1Init [] 7).2 = true
    ∧ (runBlocks 16 [] ch1Init [254, 255, 0, 1]).1.dupBlockCount = 0
    ∧ (runBlocks 16 [] ch1Init [254, 255, 0, 1]).1.oooBlockCount = 0
    ∧ (runBlocks 16 [] ch1Init [254, 255, 0, 1]).2
        = [true, true, true, true] :=
  C4_thm 16 [] 7 200 10 (by decide)

/-- C5 (confirmed): for every call to `onBlockCh1` after the first block
(`sbnLast ≠ -1`), writing `d` for the SBN delta: `d = 0` bumps
`dupBlockCount` without decoding; `d < 0` bumps `oooBlockCount` by 1 without
decoding; `d > 1` bumps `oooBlockCount` by `d - 1`, resets the destuffer and
does not decode; `d = 1` SLIP-decodes the payload; `sbnLast` is always
updated to `sbn`; and a negative `slipDecodeBlock` result resets the
destuffer state. -/
theorem C5_thm (max : Nat) (payload : List Nat) (s : Ch1State) (sbn : Nat)
    (hne : s.sbnLast ≠ -1) :
    (onBlockCh1 max s payload sbn).1.sbnLast = (sbn : Int)
    ∧ (sbnDiffOf s.sbnLast (sbn : Int) = 0 →
        onBlockCh1 max s payload sbn
          = ({ s with sbnLast := (sbn : Int),
                      dupBlockCount := s.dupBlockCount + 1 }, false))
    ∧ (sbnDiffOf s.sbnLast (sbn : Int) < 0 →
        onBlockCh1 max s payload sbn
          = ({ s with sbnLast := (sbn : Int),
                      oooBlockCount := s.oooBlockCount + 1 }, false))
    ∧ (1 < sbnDiffOf s.sbnLast (sbn : Int) →
        onBlockCh1 max s payload sbn
          = ({ s with sbnLast := (sbn : Int),
                      oooBlockCount := s.oooBlockCount
                        + (sbnDiffOf s.sbnLast (sbn : Int) - 1).toNat,
                      slip := slipInit }, false))
    ∧ (sbnDiffOf s.sbnLast (sbn : Int) = 1 →
        (onBlockCh1 max s payload sbn).2 = true
        ∧ ((slipDecodeBlock max s.slip payload).2.2 < 0 →
            (onBlockCh1 max s payload sbn).1.slip = slipInit)
        ∧ (0 ≤ (slipDecodeBlock max s.slip payload).2.2 →
            (onBlockCh1 max s payload sbn).1.slip
              = (slipDecodeBlock max s.slip payload).1)) := by
  refine ⟨?_, ?_, ?_, ?_, ?_⟩
  · unfold onBlockCh1
    rw [if_pos hne]
    split_ifs with h1 h2 h3
    · rfl
    · rfl
    · rfl
    · exact (ch1DoDecode_proj max { s with sbnLast := (sbn : Int) } payload).1
  · intro hd
    unfold onBlockCh1
    rw [if_pos hne, if_pos hd]
  · intro hd
    unfold onBlockCh1
    rw [if_pos hne, if_neg (fun h0 => absurd (h0 ▸ hd) (lt_irrefl 0)),
        if_pos hd]
  · intro hd
    unfold onBlockCh1
    rw [if_pos hne, if_neg (fun h0 => absurd (h0 ▸ hd) (by decide)),
        if_neg (fun hlt => absurd (hd.trans hlt) (by decide)), if_pos hd]
  · intro hd
    have hrw : onBlockCh1 max s payload sbn
        = (ch1DoDecode max { s with sbnLast := (sbn : Int) } payload, true) :=
      onBlockCh1_diff_one max payload s sbn hne hd
    rw [hrw]
    refine ⟨rfl, ?_, ?_⟩
    · intro herr
      simp only [ch1DoDecode]
      rw [if_pos herr]
    · intro hok
      simp only [ch1DoDecode]
      rw [if_neg (not_lt.mpr hok)]

/-- C5 (witness): the claim evaluated on a forward-gap block: state
`sbnLast = 3`, delivered SBN 5, so `d = 2 > 1`: `oooBlockCount` is bumped by
1, the destuffer is reset, the block is not decoded. -/
theorem C5_witness :
    onBlockCh1 4 ⟨3, 0, 0, slipInit⟩ [0] 5 = (⟨5, 0, 1, slipInit⟩, false) :=
  (C5_thm 4 [0] ⟨3, 0, 0, slipInit⟩ 5 (by decide)).2.2.2.1 (by decide)

/-- C3 (counterexample): with `decodeRingMaxSize = 8`, the overrun flag set
and the ring size exactly `8 / 2 = 4` at the start of the call — i.e. NOT yet
strictly below `decodeRingMaxSize / 2` — `decodePacket` nevertheless clears
the flag and enqueues the decoded frame (the ring grows to 5): the code
resumes at `size ≤ max/2`, not only strictly below it. -/
theorem C3_counterexample :
    decodePacket 8 1 ⟨[0, 0, 0, 0], true⟩ true [7] = (⟨[0, 0, 0, 0, 7], false⟩, 1)
    ∧ ¬ ((4 : Nat) < 8 / 2) :=
  ⟨rfl, by decide⟩

/-- C3 (amended): once the overrun flag is set, a call that sees a ring size
still above `decodeRingMaxSize / 2` enqueues nothing and leaves the state
unchanged; when the ring size has dropped to at most `decodeRingMaxSize / 2`,
enqueueing resumes and the flag is cleared on the next successful enqueue
(an enqueue that would overflow the ring keeps it set). -/
theorem C3_thm (maxSize channels : Nat) (st : DecodeState)
    (resampled : List Int) (h : st.overrun = true) :
    (maxSize / 2 < st.ring.length →
      decodePacket maxSize channels st true resampled = (st, 0))
    ∧ (st.ring.length ≤ maxSize / 2 →
        (st.ring.length + resampled.length ≤ maxSize →
          decodePacket maxSize channels st true resampled
            = (⟨st.ring ++ resampled, false⟩,
               ((resampled.length / channels : Nat) : Int)))
        ∧ (maxSize < st.ring.length + resampled.length →
          decodePacket maxSize channels st true resampled
            = (⟨st.ring, true⟩, -2))) := by
  refine ⟨?_, ?_⟩
  · intro hgt
    unfold decodePacket
    rw [if_neg (by simp), if_pos ⟨h, hgt⟩]
  · intro hle
    constructor
    · intro hfit
      unfold decodePacket syncer_enqueueBuf
      rw [if_neg (by simp),
          if_neg (fun hc => absurd hc.2 (Nat.not_lt.mpr hle))]
      simp only
        [if_neg (Nat.not_lt.mpr hfit : ¬ st.ring.length + resampled.length > maxSize)]
      rw [if_neg (fun he =>
        absurd (he ▸ Int.natCast_nonneg (resampled.length / channels))
          (by decide))]
    · intro hover
      unfold decodePacket syncer_enqueueBuf
      rw [if_neg (by simp),
          if_neg (fun hc => absurd hc.2 (Nat.not_lt.mpr hle))]
      simp only
        [if_pos (hover : st.ring.length + resampled.length > maxSize)]
      norm_num

/-- C3 (witness): the amended claim evaluated with `decodeRingMaxSize = 8`,
overrun set and the ring holding 6 > 4 samples: the call enqueues nothing. -/
theorem C3_witness :
    decodePacket 8 1 ⟨[0, 0, 0, 0, 0, 0], true⟩ true [7]
      = (⟨[0, 0, 0, 0, 0, 0], true⟩, 0) :=
  (C3_thm 8 1 ⟨[0, 0, 0, 0, 0, 0], true⟩ [7] rfl).1 (by decide)

/-- Every producer-side push changes the ring length by a multiple of
`networkChannelCount` (assuming the syncer pushes whole interleaved
frames). -/
lemma prodStep_dvd (maxSize channels : Nat) (st : DecodeState) (op : ProdOp)
    (hst : channels ∣ st.ring.length)
    (hop : ∀ ok r, op = ProdOp.packet ok r → channels ∣ r.length) :
    channels ∣ (prodStep maxSize channels st op).ring.length := by
  cases op with
  | silence fc =>
    simp only [prodStep, enqueueSilence]
    split_ifs <;>
      (try simp only [List.length_append, List.length_replicate]) <;>
      first
        | exact hst
        | exact Nat.dvd_add hst (dvd_mul_right channels _)
  | packet ok r =>
    have hr := hop ok r rfl
    simp only [prodStep, decodePacket, syncer_enqueueBuf]
    split_ifs <;>
      (try simp only [List.length_append, List.length_replicate]) <;>
      first
        | exact hst
        | exact Nat.dvd_add hst hr

/-- Divisibility of the ring length is preserved by any sequence of
producer-side pushes. -/
lemma runProd_dvd (maxSize channels : Nat) (ops : List ProdOp) :
    ∀ st : DecodeState, channels ∣ st.ring.length →
      (∀ op ∈ ops, ∀ ok r, op = ProdOp.packet ok r → channels ∣ r.length) →
      channels ∣ (runProd maxSize channels st ops).ring.length := by
  induction ops with
  | nil => intro st h _; simpa [runProd] using h
  | cons op rest ih =>
    intro st h hops
    simp only [runProd]
    exact ih _ (prodStep_dvd maxSize channels st op h (hops op (by simp)))
      (fun o ho => hops o (by simp [ho]))

/-- C9 (confirmed): starting from an empty decode ring, after any sequence of
producer-side pushes (`enqueueSilence` calls and `decodePacket` enqueues,
the latter pushing whole interleaved frames of `networkChannelCount` samples
each) the ring size is a multiple of `networkChannelCount`. -/
theorem C9_thm (maxSize channels : Nat) (ops : List ProdOp)
    (hops : ∀ op ∈ ops, ∀ ok r, op = ProdOp.packet ok r → channels ∣ r.length) :
    channels ∣ (runProd maxSize channels ⟨[], false⟩ ops).ring.length :=
  runProd_dvd maxSize channels ops ⟨[], false⟩ (by simp) hops

/-- C9 (witness): the invariant evaluated on a concrete trace with
`networkChannelCount = 2`: half-fill silence, one stereo frame, one dropped
frame (overflow); the final ring length 6 is a multiple of 2. -/
theorem C9_witness :
    (2 : Nat) ∣ (runProd 8 2 ⟨[], false⟩
      [ProdOp.silence 2, ProdOp.packet true [1, 2],
       ProdOp.packet true [3, 4, 5, 6]]).ring.length :=
  C9_thm 8 2 _ (by
    intro op hop ok r hr
    simp only [List.mem_cons, List.not_mem_nil, or_false] at hop
    rcases hop with h | h | h
    · subst h; exact ProdOp.noConfusion hr
    · subst h; cases hr; decide
    · subst h; cases hr; decide)

/-- C10 (confirmed): `enqueueSilence(frameCount)` returns -1 leaving the ring
unchanged for negative `frameCount`; returns -2 leaving the ring unchanged
when the push would exceed `decodeRingMaxSize`; and otherwise appends exactly
`networkChannelCount * frameCount` zero-valued samples and returns
`frameCount`. -/
theorem C10_thm (maxSize channels : Nat) (ring : List Int) (fc : Int) :
    (fc < 0 → enqueueSilence maxSize channels ring fc = (ring, -1))
    ∧ (0 ≤ fc → maxSize < ring.length + channels * fc.toNat →
        enqueueSilence maxSize channels ring fc = (ring, -2))
    ∧ (0 ≤ fc → ring.length + channels * fc.toNat ≤ maxSize →
        enqueueSilence maxSize channels ring fc
          = (ring ++ List.replicate (channels * fc.toNat) 0, fc)) := by
  refine ⟨?_, ?_, ?_⟩
  · intro h
    simp only [enqueueSilence]
    rw [if_pos h]
  · intro h0 hover
    simp only [enqueueSilence]
    rw [if_neg (not_lt.mpr h0), if_pos hover]
  · intro h0 hfit
    simp only [enqueueSilence]
    rw [if_neg (not_lt.mpr h0), if_neg (Nat.not_lt.mpr hfit)]

/-- C10 (witness): the contract evaluated at `decodeRingMaxSize = 4`,
`networkChannelCount = 2`, empty ring, one silent frame: two zero samples are
enqueued and 1 is returned. -/
theorem C10_witness : enqueueSilence 4 2 [] 1 = ([0, 0], 1) := by
  have h := (C10_thm 4 2 [] 1).2.2 (by decide) (by decide)
  simpa using h

/-- The loop iteration for endpoint `i` leaves every other endpoint's
`bytesOut` counter untouched. -/
lemma sendToPeerStep_ne (sendResult : Nat → Int) (bufLen : Nat)
    (acc : Nat → Nat) (i j : Nat) (h : j ≠ i) :
    sendToPeerStep sendResult bufLen acc i j = acc j := by
  simp only [sendToPeerStep]
  split_ifs with h1 h2
  · rfl
  · rfl
  · simp [h]

/-- Full characterisation of `sendBufToAll` on the `bytesOut` counters: every
endpoint below `endpointCount` whose send succeeds gains exactly
`bufLen + 28`; every endpoint whose send fails or is not ready keeps its
counter; indices beyond the endpoint range are untouched. -/
lemma sendBufToAll_spec (sendResult : Nat → Int) (bufLen : Nat) :
    ∀ (n : Nat) (bytesOut : Nat → Nat),
      (∀ i, i < n → sendResult i = 0 →
        sendBufToAll sendResult bufLen n bytesOut i = bytesOut i + (bufLen + 28))
      ∧ (∀ i, i < n → sendResult i ≠ 0 →
        sendBufToAll sendResult bufLen n bytesOut i = bytesOut i)
      ∧ (∀ j, n ≤ j → sendBufToAll sendResult bufLen n bytesOut j = bytesOut j) := by
  intro n
  induction n with
  | zero =>
    intro bytesOut
    exact ⟨fun i hi _ => absurd hi (Nat.not_lt_zero i),
           fun i hi _ => absurd hi (Nat.not_lt_zero i),
           fun j _ => by simp [sendBufToAll]⟩
  | succ n ih =>
    intro bytesOut
    have hsplit : sendBufToAll sendResult bufLen (n + 1) bytesOut
        = sendToPeerStep sendResult bufLen
            (sendBufToAll sendResult bufLen n bytesOut) n := by
      simp [sendBufToAll, List.range_succ, List.foldl_append]
    obtain ⟨ih1, ih2, ih3⟩ := ih bytesOut
    refine ⟨?_, ?_, ?_⟩
    · intro i hi h0
      rw [hsplit]
      by_cases hin : i = n
      · subst hin
        simp [sendToPeerStep, h0, ih3 i (le_refl i)]
      · rw [sendToPeerStep_ne _ _ _ n i hin]
        exact ih1 i (Nat.lt_of_le_of_ne (Nat.lt_succ_iff.mp hi) hin) h0
    · intro i hi hne
      rw [hsplit]
      by_cases hin : i = n
      · subst hin
        simp only [sendToPeerStep]
        split_ifs <;> exact ih3 i (le_refl i)
      · rw [sendToPeerStep_ne _ _ _ n i hin]
        exact ih2 i (Nat.lt_of_le_of_ne (Nat.lt_succ_iff.mp hi) hin) hne
    · intro j hj
      rw [hsplit, sendToPeerStep_ne _ _ _ n j
        (fun he => Nat.not_succ_le_self n (he ▸ hj))]
      exact ih3 j (Nat.le_of_succ_le hj)

/-- C7 (confirmed): in `sendBufToAll(buf, len)`, each endpoint `i` in range
whose send succeeds has its `bytesOut` counter incremented by exactly
`len + 28`; a not-ready endpoint (`wsocket_sendToPeer = -1`) and an endpoint
with a send error keep their counters unchanged — and this holds for every
endpoint independently of errors on the others, so one endpoint's failure
does not prevent the iteration over the rest. -/
theorem C7_thm (sendResult : Nat → Int) (bufLen n : Nat) (bytesOut : Nat → Nat)
    (i : Nat) (hi : i < n) :
    (sendResult i = 0 →
      sendBufToAll sendResult bufLen n bytesOut i = bytesOut i + (bufLen + 28))
    ∧ (sendResult i ≠ 0 →
      sendBufToAll sendResult bufLen n bytesOut i = bytesOut i) :=
  ⟨fun h => (sendBufToAll_spec sendResult bufLen n bytesOut).1 i hi h,
   fun h => (sendBufToAll_spec sendResult bufLen n bytesOut).2.1 i hi h⟩

/-- C7 (witness): two endpoints, endpoint 0 has a send error (code 5),
endpoint 1 succeeds and gains `10 + 28 = 38`. -/
theorem C7_witness :
    sendBufToAll (fun i => if i = 0 then 5 else 0) 10 2 (fun _ => 0) 1
      = 0 + (10 + 28) :=
  (C7_thm (fun i => if i = 0 then 5 else 0) 10 2 (fun _ => 0) 1
    (by decide)).1 (by decide)

/-- C8 (confirmed): for a plaintext of at most 1480 bytes, `endpointsec_send`
hands the engine a `bufLen + 20`-byte buffer: a 20-byte header whose first
byte is `0x45` (version 4, IHL 5), whose bytes 2-3 hold `bufLen + 20`
big-endian, and whose every other byte is zero, followed by the plaintext
unchanged; for more than 1480 bytes it returns -1 without calling the
engine. -/
theorem C8_thm (buf : List Nat) :
    (buf.length ≤ 1480 →
      ∃ hdr : List Nat,
        endpointsec_send buf = Except.ok (hdr ++ buf)
        ∧ hdr.length = 20
        ∧ hdr.get? 0 = some 0x45
        ∧ hdr.get? 2 = some ((buf.length + 20) / 256)
        ∧ hdr.get? 3 = some ((buf.length + 20) % 256)
        ∧ 256 * ((buf.length + 20) / 256) + (buf.length + 20) % 256
            = buf.length + 20
        ∧ (∀ k, k < 20 → k ≠ 0 → k ≠ 2 → k ≠ 3 → hdr.get? k = some 0))
    ∧ (1480 < buf.length → endpointsec_send buf = Except.error (-1)) := by
  constructor
  · intro h
    refine ⟨[0x45, 0x00, (buf.length + 20) / 256, (buf.length + 20) % 256,
             0, 0, 0, 0, 0, 0, 0, 0, 0, 0, 0, 0, 0, 0, 0, 0],
            ?_, rfl, rfl, rfl, rfl, Nat.div_add_mod (buf.length + 20) 256, ?_⟩
    · unfold endpointsec_send
      rw [if_neg (Nat.not_lt.mpr h)]
    · intro k hk h0 h2 h3
      interval_cases k <;>
        first
          | (exact absurd rfl h0)
          | (exact absurd rfl h2)
          | (exact absurd rfl h3)
          | rfl
  · intro h
    unfold endpointsec_send
    rw [if_pos h]

/-- C8 (witness): the header built for the 1-byte plaintext `[7]`: total
length 21 = `0x00 0x15` big-endian. -/
theorem C8_witness :
    ∃ hdr : List Nat,
      endpointsec_send [7] = Except.ok (hdr ++ [7])
      ∧ hdr.length = 20
      ∧ hdr.get? 0 = some 0x45
      ∧ hdr.get? 2 = some ((([7] : List Nat).length + 20) / 256)
      ∧ hdr.get? 3 = some ((([7] : List Nat).length + 20) % 256)
      ∧ 256 * ((([7] : List Nat).length + 20) / 256)
          + (([7] : List Nat).length + 20) % 256 = ([7] : List Nat).length + 20
      ∧ (∀ k, k < 20 → k ≠ 0 → k ≠ 2 → k ≠ 3 → hdr.get? k = some 0) :=
  (C8_thm [7]).1 (by decide)
